import Mathlib

/-!
Verification of the ANS registry scraping pipeline
(src/get-registro-ans: main.py, join.py, get_cnpj.py, get_cnpj_cnpjbiz.py).

The stateful Python loops are embedded as pure functions over explicit
state; the browser/HTTP environment is an explicit trace of observations.
Character classes of the Python regexes are modelled over ASCII, which is
exact for every input the programs produce at the relevant call sites.
-/

namespace Ans

/-! ## Whitespace normalization

Model of the regex character class of Python r-string backslash-s over
ASCII: space, tab, newline, carriage return, vertical tab, form feed. -/

def isSpaceChar (c : Char) : Bool :=
  c = ' ' || c = '\t' || c = '\n' || c = '\r' || c = '\x0b' || c = '\x0c'

/-- One pass of re.sub collapsing each maximal whitespace run to a single
space. The flag records whether the previous consumed char was whitespace
(so the run already emitted its single space). -/
def collapseAux : Bool → List Char → List Char
  | _, [] => []
  | afterWs, c :: rest =>
    if isSpaceChar c then
      if afterWs then collapseAux true rest
      else ' ' :: collapseAux true rest
    else c :: collapseAux false rest

/-- Python str.strip on a char list: drop whitespace from both ends. -/
def stripList (l : List Char) : List Char :=
  (((l.dropWhile isSpaceChar).reverse.dropWhile isSpaceChar)).reverse

/-- clean from get_cnpj_cnpjbiz.py lines 71-72 (identical to the helper
with the underscore-prefixed name in get_cnpj.py lines 51-54):
re.sub collapsing whitespace runs to one space, then strip. -/
def clean (s : String) : String :=
  String.mk (stripList (collapseAux false s.data))

/-- The list-level cleaning pass underlying clean. -/
def cleanList (l : List Char) : List Char := stripList (collapseAux false l)

/-- Pairs of adjacent characters are never both whitespace. -/
def NoAdjSpaces (l : List Char) : Prop :=
  List.Chain' (fun x y => ¬(isSpaceChar x = true ∧ isSpaceChar y = true)) l

/-- only_digits from get_cnpj_cnpjbiz.py lines 74-75: remove every
non-digit character. -/
def onlyDigits (s : String) : String :=
  String.mk (s.data.filter Char.isDigit)

/-! ## CNPJ regex

CNPJ_REGEX from get_cnpj.py line 31: word boundary, 2 digits, dot,
3 digits, dot, 3 digits, slash, 4 digits, dash, 2 digits, word boundary;
re.search returns the leftmost match. -/

def isWordChar (c : Char) : Bool := c.isAlphanum || c = '_'

/-- Consume exactly n digit characters from the front. -/
def digitsTake : Nat → List Char → Option (List Char × List Char)
  | 0, l => some ([], l)
  | _ + 1, [] => none
  | n + 1, c :: rest =>
    if c.isDigit then (digitsTake n rest).map (fun p => (c :: p.1, p.2))
    else none

/-- Consume one expected literal character. -/
def expectChar (ch : Char) : List Char → Option (List Char)
  | [] => none
  | c :: rest => if c = ch then some rest else none

/-- Match the fixed-shape CNPJ pattern at the current position, returning
the matched characters and the remainder. -/
def matchCnpjCore (l : List Char) : Option (List Char × List Char) := do
  let (d1, r) ← digitsTake 2 l
  let r ← expectChar '.' r
  let (d2, r) ← digitsTake 3 r
  let r ← expectChar '.' r
  let (d3, r) ← digitsTake 3 r
  let r ← expectChar '/' r
  let (d4, r) ← digitsTake 4 r
  let r ← expectChar '-' r
  let (d5, r) ← digitsTake 2 r
  pure (d1 ++ '.' :: d2 ++ '.' :: d3 ++ '/' :: d4 ++ '-' :: d5, r)

/-- The trailing word boundary: the remainder is empty or starts with a
non-word character (the last matched char is a digit, hence a word char). -/
def boundaryOk : List Char → Bool
  | [] => true
  | c :: _ => !isWordChar c

/-- Leftmost search for the CNPJ pattern; prev is the character before the
current position for the leading word-boundary test. -/
def cnpjSearchAux : Option Char → List Char → Option (List Char)
  | _, [] => none
  | prev, c :: rest =>
    let bOk := match prev with
      | none => true
      | some p => !isWordChar p
    if bOk then
      match matchCnpjCore (c :: rest) with
      | some (m, r) => if boundaryOk r then some m else cnpjSearchAux (some c) rest
      | none => cnpjSearchAux (some c) rest
    else cnpjSearchAux (some c) rest

/-- extract_cnpj_text from get_cnpj.py lines 91-93: first CNPJ-shaped
match in the text, or the empty string. -/
def extractCnpjText (s : String) : String :=
  match cnpjSearchAux none s.data with
  | some m => String.mk m
  | none => ""

/-! ## The detail document and the extraction fallback chain -/

/-- A rendered detail page of the ANS operator lookup, as fetch_cnpj (in
get_cnpj.py lines 96-150) observes it: the text of the element with the
direct id formConsulta:outCNPJ when that element is present, the text of
the value label next to the visible CNPJ: row label when present, and the
full page source. The document is static during one fetch, so the
two-attempt staleness loop around strategy 1 and the refresh collapse. -/
structure Doc where
  byId : Option String
  byLabel : Option String
  pageSource : String
deriving DecidableEq

/-- fetch_cnpj from get_cnpj.py lines 96-150: try the direct id, then the
label-relative lookup, then the regex over the whole page source, and
return the first non-empty extraction, else the empty string. Absence of
an anchor (a wait timeout in the source) is a skipped strategy. -/
def fetchCnpj (d : Doc) : String :=
  let s1 := match d.byId with
    | some t => extractCnpjText t
    | none => ""
  if s1 ≠ "" then s1
  else
    let s2 := match d.byLabel with
      | some t => extractCnpjText t
      | none => ""
    if s2 ≠ "" then s2
    else extractCnpjText d.pageSource

/-- The per-strategy results, for stating the chain ordering. -/
def strat1 (d : Doc) : String :=
  match d.byId with
  | some t => extractCnpjText t
  | none => ""

def strat2 (d : Doc) : String :=
  match d.byLabel with
  | some t => extractCnpjText t
  | none => ""

def strat3 (d : Doc) : String := extractCnpjText d.pageSource

/-- Modelled from the spec: the chain stops at the first non-empty
result of the ordered strategies (spec section 4.2). Stated for
comparison with fetchCnpj, which is translated from the source. -/
def firstNonEmpty (xs : List String) : String :=
  match xs.find? (fun x => x ≠ "") with
  | some x => x
  | none => ""

def chainSpec (d : Doc) : String := firstNonEmpty [strat1 d, strat2 d, strat3 d]

/-! ## Records, patches and write-back -/

/-- One row of the working table, with the columns the pipeline touches:
the registration key, the two name columns, the CNPJ column filled by
get_cnpj.py, and the seven address/phone columns filled by
get_cnpj_cnpjbiz.py. All cells are strings; a missing cell is the empty
string (pandas fillna). -/
structure Rec where
  reg : String
  razao : String
  fantasia : String
  cnpj : String
  logradouro : String
  complemento : String
  bairro : String
  cep : String
  municipio : String
  estado : String
  telefone1 : String
deriving DecidableEq

def defaultRec : Rec := ⟨"", "", "", "", "", "", "", "", "", "", ""⟩

/-- The dict returned by parse_location_and_phone / the all-empty fallback
in get_cnpj_cnpjbiz.py: exactly the seven target fields. -/
structure Patch where
  logradouro : String
  complemento : String
  bairro : String
  cep : String
  municipio : String
  estado : String
  telefone1 : String
deriving DecidableEq

def emptyPatch : Patch := ⟨"", "", "", "", "", "", ""⟩

/-- The per-record write-back of get_cnpj_cnpjbiz.py lines 240-242:
for every key of the fetched dict, df_out.at gets clean of the value,
unconditionally. -/
def applyPatch (r : Rec) (p : Patch) : Rec :=
  { r with
    logradouro := clean p.logradouro
    complemento := clean p.complemento
    bairro := clean p.bairro
    cep := clean p.cep
    municipio := clean p.municipio
    estado := clean p.estado
    telefone1 := clean p.telefone1 }

/-- The per-record write-back of get_cnpj.py line 189:
df_out.at on the CNPJ column gets the fetched string, unconditionally. -/
def writeCnpj (r : Rec) (c : String) : Rec := { r with cnpj := c }

/-- Column lookup by the CSV header name. -/
def getCol (r : Rec) (c : String) : String :=
  if c = "Registro ANS" then r.reg
  else if c = "Razão Social" then r.razao
  else if c = "Nome Fantasia" then r.fantasia
  else if c = "CNPJ" then r.cnpj
  else if c = "Logradouro" then r.logradouro
  else if c = "Complemento" then r.complemento
  else if c = "Bairro" then r.bairro
  else if c = "CEP" then r.cep
  else if c = "Município" then r.municipio
  else if c = "Estado" then r.estado
  else if c = "Telefone 1" then r.telefone1
  else ""

/-- target_cols from get_cnpj_cnpjbiz.py line 206. -/
def targetCols : List String :=
  ["Logradouro", "Complemento", "Bairro", "CEP", "Município", "Estado", "Telefone 1"]

/-! ## Pending sets -/

/-- pending_idx of get_cnpj_cnpjbiz.py lines 207-208: the row indices,
in table order, where some target column is empty after clean. -/
def pendingIdxBiz (table : List Rec) : List Nat :=
  (List.range table.length).filter
    (fun i => targetCols.any (fun c => clean (getCol (table.getD i defaultRec) c) == ""))

/-- pending_idx of get_cnpj.py line 165: enumerate the CNPJ column and
keep the indices whose value is empty after the cleaning helper. -/
def pendingIdxCnpjAux : Nat → List String → List Nat
  | _, [] => []
  | i, v :: rest =>
    if clean v = "" then i :: pendingIdxCnpjAux (i + 1) rest
    else pendingIdxCnpjAux (i + 1) rest

def pendingIdxCnpj (col : List String) : List Nat := pendingIdxCnpjAux 0 col

/-! ## The enrichment loop bodies -/

/-- One iteration of the get_cnpj_cnpjbiz.py main loop (lines 217-254)
restricted to its effect on the current row and on the batch-progress
counter, with the fetch result supplied as an argument: an invalid CNPJ
(no digits, or not exactly 14 digits after stripping non-digits) skips
the row entirely but still advances the counter; otherwise every fetched
field is written back through clean. -/
def cnpjbizIter (r : Rec) (counter : Nat) (p : Patch) : Rec × Nat :=
  let digits := onlyDigits (clean r.cnpj)
  if digits = "" ∨ digits.length ≠ 14 then (r, counter + 1)
  else (applyPatch r p, counter + 1)

/-- The fetch-with-retry of get_cnpj_cnpjbiz.py lines 230-238, with the
two attempts' outcomes supplied as oracles (error is a raised
transport/timeout failure): a first failure triggers exactly one retry
(after the sleep), and a failing retry is absorbed into the all-empty
dict. The second component counts the attempts performed. -/
def cnpjbizDrive (o1 o2 : Except Unit Patch) : Patch × Nat :=
  match o1 with
  | Except.ok d => (d, 1)
  | Except.error _ =>
    match o2 with
    | Except.ok d => (d, 2)
    | Except.error _ => (emptyPatch, 2)

/-- The fetch logic of get_cnpj.py lines 180-187 with the two possible
fetch outcomes as oracles: the try block covers the first fetch and the
second light attempt, the second attempt runs only when the first
RETURNED an empty string, and any raised failure anywhere in the block
is absorbed into the empty string. The second component counts the
attempts performed. -/
def getCnpjDrive (o1 o2 : Except Unit String) : String × Nat :=
  match o1 with
  | Except.error _ => ("", 1)
  | Except.ok c =>
    if c = "" then
      match o2 with
      | Except.error _ => ("", 2)
      | Except.ok c2 => (c2, 2)
    else (c, 1)

/-! ## The pagination crawl loop -/

/-- What the environment shows the loop body of main.py lines 145-166 in
one iteration: the page indicator parsed by get_current_and_total (none
when the indicator cannot be located or does not parse), and whether
click_next_and_wait succeeds (false when the next button is disabled). -/
structure Obs where
  pageCur : Option Nat
  pageTot : Option Nat
  advanceOk : Bool
deriving DecidableEq

/-- The while-True loop of main.py lines 145-166 over a trace of
environment observations, one consumed per iteration, returning the page
indices under which snapshots are persisted, in order. A current of none
defaults to 1; the loop stops when the total is none, when current has
reached the freshly read total, or when the advance reports the next
button disabled; an exhausted trace means the loop was still running. -/
def crawl : List Obs → List Nat
  | [] => []
  | o :: rest =>
    let current := o.pageCur.getD 1
    current ::
      (match o.pageTot with
       | none => []
       | some t =>
         if t ≤ current then []
         else if o.advanceOk then crawl rest else [])

/-- The page indices the indicator reports along a trace, after the
none-defaults-to-1 step. -/
def currents (tr : List Obs) : List Nat := tr.map (fun o => o.pageCur.getD 1)

/-- The total-page count of the first observation, as the claim reads it. -/
def firstTotal (tr : List Obs) : Option Nat :=
  match tr with
  | [] => none
  | o :: _ => o.pageTot

/-! ## Batch checkpoint cadence -/

/-- The checkpoint schedule of the enrichment loops (get_cnpj.py lines
190-206, get_cnpj_cnpjbiz.py lines 224-258): every processed record
increments processed_since_save; on reaching the batch size the table is
saved and the counter reset; after the loop one final save happens iff
the counter is positive. Returns the one-based record counts right after
which a save occurs. -/
def checkpointPoints (batch n : Nat) : List Nat :=
  let s := (List.range n).foldl
    (fun (acc : List Nat × Nat) i =>
      let p := acc.2 + 1
      if batch ≤ p then (acc.1 ++ [i + 1], 0) else (acc.1, p))
    ([], 0)
  if 0 < s.2 then s.1 ++ [n] else s.1

/-! ## Dataset merging -/

/-- A base row as produced by the pagination crawl (main.py) and
concatenated by join.py. -/
structure BaseRow where
  reg : String
  razao : String
  fantasia : String
deriving DecidableEq

/-- A row of the CNPJ-stage checkpoint file. -/
structure CnpjRow where
  reg : String
  razao : String
  fantasia : String
  cnpj : String
deriving DecidableEq

/-- join.py lines 16-19: pd.concat of the shard tables in shard order,
with no deduplication. -/
def concatShards (shards : List (List BaseRow)) : List BaseRow := shards.flatten

def keysOf (t : List BaseRow) : List String := t.map BaseRow.reg

def keysOfC (t : List CnpjRow) : List String := t.map CnpjRow.reg

/-- The row-match predicate of the left merge in merge_with_existing
(get_cnpj.py lines 66-85) when all three merge-key columns are present
in both tables. -/
def rowMatches (b : BaseRow) (o : CnpjRow) : Bool :=
  o.reg == b.reg && o.razao == b.razao && o.fantasia == b.fantasia

/-- merge_with_existing of get_cnpj.py lines 66-85: pandas how-left merge
of the base table with the checkpoint's key and CNPJ columns; a base row
with no checkpoint match gets an empty CNPJ (fillna), and a base row with
several checkpoint matches is emitted once per match. -/
def mergeWithExisting (base : List BaseRow) (old : List CnpjRow) : List CnpjRow :=
  base.flatMap (fun b =>
    match old.filter (fun o => rowMatches b o) with
    | [] => [⟨b.reg, b.razao, b.fantasia, ""⟩]
    | m :: ms => (m :: ms).map (fun o => ⟨b.reg, b.razao, b.fantasia, o.cnpj⟩))

/-! ## Lemmas about whitespace normalization -/

theorem collapseAux_space_eq (l : List Char) :
    ∀ (b : Bool) (c : Char), c ∈ collapseAux b l → isSpaceChar c = true → c = ' ' := by
  induction l with
  | nil => intro b c h; simp [collapseAux] at h
  | cons a rest ih =>
    intro b c h hs
    by_cases ha : isSpaceChar a = true
    · cases b with
      | true =>
        rw [show collapseAux true (a :: rest) = collapseAux true rest by
          simp [collapseAux, ha]] at h
        exact ih true c h hs
      | false =>
        rw [show collapseAux false (a :: rest) = ' ' :: collapseAux true rest by
          simp [collapseAux, ha]] at h
        rcases List.mem_cons.mp h with h | h
        · exact h
        · exact ih true c h hs
    · rw [show collapseAux b (a :: rest) = a :: collapseAux false rest by
        simp [collapseAux, ha]] at h
      rcases List.mem_cons.mp h with h | h
      · subst h; exact absurd hs ha
      · exact ih false c h hs

theorem collapseAux_true_head (l : List Char) :
    ∀ c : Char, (collapseAux true l).head? = some c → isSpaceChar c = false := by
  induction l with
  | nil => intro c h; simp [collapseAux] at h
  | cons a rest ih =>
    intro c h
    by_cases ha : isSpaceChar a = true
    · rw [show collapseAux true (a :: rest) = collapseAux true rest by
        simp [collapseAux, ha]] at h
      exact ih c h
    · rw [show collapseAux true (a :: rest) = a :: collapseAux false rest by
        simp [collapseAux, ha]] at h
      simp only [List.head?_cons, Option.some.injEq] at h
      subst h
      simpa using ha

theorem collapseAux_true_eq_false (l : List Char)
    (h : ∀ c : Char, l.head? = some c → isSpaceChar c = false) :
    collapseAux true l = collapseAux false l := by
  cases l with
  | nil => rfl
  | cons a rest =>
    have ha := h a rfl
    simp [collapseAux, ha]

theorem collapseAux_chain' (l : List Char) : ∀ b : Bool, NoAdjSpaces (collapseAux b l) := by
  induction l with
  | nil => intro b; simp [collapseAux, NoAdjSpaces]
  | cons a rest ih =>
    intro b
    by_cases ha : isSpaceChar a = true
    · cases b with
      | true =>
        rw [show collapseAux true (a :: rest) = collapseAux true rest by
          simp [collapseAux, ha]]
        exact ih true
      | false =>
        rw [show collapseAux false (a :: rest) = ' ' :: collapseAux true rest by
          simp [collapseAux, ha]]
        rw [NoAdjSpaces, List.chain'_cons']
        refine ⟨fun y hy => ?_, ih true⟩
        have := collapseAux_true_head rest y hy
        simp [this]
    · rw [show collapseAux b (a :: rest) = a :: collapseAux false rest by
        simp [collapseAux, ha]]
      rw [NoAdjSpaces, List.chain'_cons']
      refine ⟨fun y hy => ?_, ih false⟩
      intro hc
      exact ha hc.1

theorem dropWhile_head_not (p : Char → Bool) (l : List Char) :
    ∀ c : Char, (l.dropWhile p).head? = some c → p c = false := by
  induction l with
  | nil => intro c h; simp [List.dropWhile] at h
  | cons a rest ih =>
    intro c h
    by_cases hp : p a = true
    · rw [List.dropWhile_cons_of_pos hp] at h
      exact ih c h
    · rw [List.dropWhile_cons_of_neg hp] at h
      simp only [List.head?_cons, Option.some.injEq] at h
      subst h
      simpa using hp

theorem dropWhile_eq_self_of_head (p : Char → Bool) (l : List Char)
    (h : ∀ c : Char, l.head? = some c → p c = false) :
    l.dropWhile p = l := by
  cases l with
  | nil => rfl
  | cons a rest => rw [List.dropWhile_cons_of_neg (by simp [h a rfl])]

theorem suffix_reverse_of_suffix {l₁ l₂ : List Char} (h : l₁ <:+ l₂) :
    l₁.reverse <+: l₂.reverse := by
  rcases h with ⟨t, rfl⟩
  exact ⟨t.reverse, (List.reverse_append t l₁).symm⟩

theorem head?_of_initialSegment {l₁ l₂ : List Char} {c : Char} (h : l₁ <+: l₂)
    (hc : l₁.head? = some c) : l₂.head? = some c := by
  rcases h with ⟨t, rfl⟩
  cases l₁ with
  | nil => simp at hc
  | cons a r => simpa using hc

theorem stripList_mem {l : List Char} {c : Char} (h : c ∈ stripList l) : c ∈ l := by
  unfold stripList at h
  rw [List.mem_reverse] at h
  have h2 := (List.dropWhile_sublist isSpaceChar).subset h
  rw [List.mem_reverse] at h2
  exact (List.dropWhile_sublist isSpaceChar).subset h2

theorem noAdjSpaces_reverse {l : List Char} (h : NoAdjSpaces l) : NoAdjSpaces l.reverse := by
  rw [NoAdjSpaces, List.chain'_reverse]
  refine h.imp ?_
  intro x y hxy hc
  exact hxy ⟨hc.2, hc.1⟩

theorem stripList_chain' {l : List Char} (h : NoAdjSpaces l) : NoAdjSpaces (stripList l) := by
  unfold stripList
  have h1 : NoAdjSpaces (l.dropWhile isSpaceChar) :=
    h.suffix (List.dropWhile_suffix isSpaceChar)
  have h2 := noAdjSpaces_reverse h1
  have h3 : NoAdjSpaces ((l.dropWhile isSpaceChar).reverse.dropWhile isSpaceChar) :=
    h2.suffix (List.dropWhile_suffix isSpaceChar)
  exact noAdjSpaces_reverse h3

theorem stripList_head (l : List Char) :
    ∀ c : Char, (stripList l).head? = some c → isSpaceChar c = false := by
  intro c hc
  unfold stripList at hc
  have hpre : ((l.dropWhile isSpaceChar).reverse.dropWhile isSpaceChar).reverse <+:
      (l.dropWhile isSpaceChar) := by
    have := suffix_reverse_of_suffix
      (List.dropWhile_suffix (l := (l.dropWhile isSpaceChar).reverse) isSpaceChar)
    rwa [List.reverse_reverse] at this
  exact dropWhile_head_not isSpaceChar l c (head?_of_initialSegment hpre hc)

theorem stripList_getLast (l : List Char) :
    ∀ c : Char, (stripList l).getLast? = some c → isSpaceChar c = false := by
  intro c hc
  unfold stripList at hc
  rw [List.getLast?_reverse] at hc
  exact dropWhile_head_not isSpaceChar _ c hc

theorem collapseAux_id (l : List Char)
    (hsp : ∀ c ∈ l, isSpaceChar c = true → c = ' ')
    (hch : NoAdjSpaces l) :
    collapseAux false l = l := by
  induction l with
  | nil => rfl
  | cons a rest ih =>
    rw [NoAdjSpaces, List.chain'_cons'] at hch
    by_cases ha : isSpaceChar a = true
    · have haeq : a = ' ' := hsp a (List.mem_cons_self a rest) ha
      have hresthead : ∀ c : Char, rest.head? = some c → isSpaceChar c = false := by
        intro c hc
        have := hch.1 c hc
        rcases Bool.eq_false_or_eq_true (isSpaceChar c) with h | h
        · exact absurd ⟨ha, h⟩ this
        · exact h
      have hcr : collapseAux true rest = rest := by
        rw [collapseAux_true_eq_false rest hresthead]
        exact ih (fun c hc => hsp c (List.mem_cons_of_mem a hc)) hch.2
      subst haeq
      simp [collapseAux, ha, hcr]
    · have : collapseAux false rest = rest :=
        ih (fun c hc => hsp c (List.mem_cons_of_mem a hc)) hch.2
      simp [collapseAux, ha, this]

theorem stripList_id (l : List Char)
    (hh : ∀ c : Char, l.head? = some c → isSpaceChar c = false)
    (hl : ∀ c : Char, l.getLast? = some c → isSpaceChar c = false) :
    stripList l = l := by
  unfold stripList
  rw [dropWhile_eq_self_of_head isSpaceChar l hh]
  rw [dropWhile_eq_self_of_head isSpaceChar l.reverse
    (fun c hc => hl c (by rwa [List.head?_reverse] at hc))]
  exact List.reverse_reverse l

theorem clean_eq_mk (s : String) : clean s = String.mk (cleanList s.data) := rfl

theorem cleanList_space_eq (l : List Char) :
    ∀ c ∈ cleanList l, isSpaceChar c = true → c = ' ' :=
  fun c hc => collapseAux_space_eq l false c (stripList_mem hc)

theorem cleanList_chain' (l : List Char) : NoAdjSpaces (cleanList l) :=
  stripList_chain' (collapseAux_chain' l false)

theorem cleanList_idem (l : List Char) : cleanList (cleanList l) = cleanList l := by
  unfold cleanList
  rw [collapseAux_id (stripList (collapseAux false l))
    (cleanList_space_eq l) (cleanList_chain' l)]
  exact stripList_id _ (stripList_head _) (stripList_getLast _)

/-! ## Lemmas about the crawl loop -/

theorem currents_cons (o : Obs) (rest : List Obs) :
    currents (o :: rest) = o.pageCur.getD 1 :: currents rest := rfl

theorem crawl_cons_stop_total (o : Obs) (rest : List Obs) (h : o.pageTot = none) :
    crawl (o :: rest) = [o.pageCur.getD 1] := by
  simp [crawl, h]

theorem crawl_cons_stop_done (o : Obs) (rest : List Obs) (t : Nat)
    (h : o.pageTot = some t) (hd : t ≤ o.pageCur.getD 1) :
    crawl (o :: rest) = [o.pageCur.getD 1] := by
  simp [crawl, h, hd]

theorem crawl_cons_stop_adv (o : Obs) (rest : List Obs) (t : Nat)
    (h : o.pageTot = some t) (hd : ¬t ≤ o.pageCur.getD 1) (ha : o.advanceOk = false) :
    crawl (o :: rest) = [o.pageCur.getD 1] := by
  simp [crawl, h, hd, ha]

theorem crawl_cons_go (o : Obs) (rest : List Obs) (t : Nat)
    (h : o.pageTot = some t) (hd : ¬t ≤ o.pageCur.getD 1) (ha : o.advanceOk = true) :
    crawl (o :: rest) = o.pageCur.getD 1 :: crawl rest := by
  simp [crawl, h, hd, ha]

theorem crawl_length_aux :
    ∀ (tr : List Obs) (T k : Nat), 1 ≤ k → k ≤ T →
      (∀ o ∈ tr, o.pageTot = some T) →
      List.Chain' (· < ·) (currents tr) →
      (∀ c : Nat, (currents tr).head? = some c → k ≤ c) →
      (crawl tr).length ≤ T + 1 - k := by
  intro tr
  induction tr with
  | nil => intro T k _ _ _ _ _; simp [crawl]
  | cons o rest ih =>
    intro T k hk hkT htot hch hfst
    have hto : o.pageTot = some T := htot o (List.mem_cons_self o rest)
    have hkc : k ≤ o.pageCur.getD 1 := hfst _ (by rw [currents_cons]; rfl)
    by_cases hd : T ≤ o.pageCur.getD 1
    · rw [crawl_cons_stop_done o rest T hto hd]
      simp only [List.length_cons, List.length_nil]
      omega
    · cases ha : o.advanceOk with
      | false =>
        rw [crawl_cons_stop_adv o rest T hto hd ha]
        simp only [List.length_cons, List.length_nil]
        omega
      | true =>
        rw [crawl_cons_go o rest T hto hd ha]
        rw [currents_cons, List.chain'_cons'] at hch
        have hnext : ∀ c : Nat, (currents rest).head? = some c →
            o.pageCur.getD 1 + 1 ≤ c := by
          intro c hc
          have := hch.1 c (by rw [hc]; rfl)
          omega
        have hrec := ih T (o.pageCur.getD 1 + 1) (by omega) (by omega)
          (fun x hx => htot x (List.mem_cons_of_mem o hx)) hch.2 hnext
        simp only [List.length_cons]
        omega

theorem crawl_sublist : ∀ tr : List Obs, List.Sublist (crawl tr) (currents tr) := by
  intro tr
  induction tr with
  | nil => simp [crawl, currents]
  | cons o rest ih =>
    rw [currents_cons]
    rcases hto : o.pageTot with _ | t
    · rw [crawl_cons_stop_total o rest hto]
      exact List.Sublist.cons₂ _ (List.nil_sublist _)
    · by_cases hd : t ≤ o.pageCur.getD 1
      · rw [crawl_cons_stop_done o rest t hto hd]
        exact List.Sublist.cons₂ _ (List.nil_sublist _)
      · cases ha : o.advanceOk with
        | false =>
          rw [crawl_cons_stop_adv o rest t hto hd ha]
          exact List.Sublist.cons₂ _ (List.nil_sublist _)
        | true =>
          rw [crawl_cons_go o rest t hto hd ha]
          exact List.Sublist.cons₂ _ ih

/-! ## Lemmas about the dataset merge -/

theorem mergeWith_keys :
    ∀ (base : List BaseRow) (old : List CnpjRow),
      (∀ b ∈ base, (old.filter (fun o => rowMatches b o)).length ≤ 1) →
      keysOfC (mergeWithExisting base old) = base.map BaseRow.reg := by
  intro base
  induction base with
  | nil => intro old _; rfl
  | cons b rest ih =>
    intro old hone
    rw [show mergeWithExisting (b :: rest) old =
        (match old.filter (fun o => rowMatches b o) with
         | [] => [⟨b.reg, b.razao, b.fantasia, ""⟩]
         | m :: ms => (m :: ms).map (fun o => ⟨b.reg, b.razao, b.fantasia, o.cnpj⟩))
        ++ mergeWithExisting rest old from List.flatMap_cons ..]
    rw [show keysOfC (_ ++ mergeWithExisting rest old) = _ ++ keysOfC (mergeWithExisting rest old)
      from List.map_append ..]
    rw [ih old (fun x hx => hone x (List.mem_cons_of_mem b hx))]
    rcases hfil : old.filter (fun o => rowMatches b o) with _ | ⟨m, ms⟩
    · rfl
    · have hms : ms = [] := by
        have := hone b (List.mem_cons_self b rest)
        rw [hfil] at this
        simp only [List.length_cons] at this
        exact List.length_eq_zero.mp (by omega)
      subst hms
      rfl

/-! ## Lemmas about the pending sets -/

theorem pendingIdxCnpjAux_mem :
    ∀ (col : List String) (n i : Nat),
      i ∈ pendingIdxCnpjAux n col ↔
        ∃ j, j < col.length ∧ i = n + j ∧ clean (col.getD j "") = "" := by
  intro col
  induction col with
  | nil => intro n i; simp [pendingIdxCnpjAux]
  | cons v rest ih =>
    intro n i
    by_cases hv : clean v = ""
    · rw [show pendingIdxCnpjAux n (v :: rest) = n :: pendingIdxCnpjAux (n + 1) rest by
        simp [pendingIdxCnpjAux, hv]]
      simp only [List.mem_cons, ih (n + 1) i]
      constructor
      · rintro (rfl | ⟨j, hj, rfl, hc⟩)
        · exact ⟨0, by simp, by simp, by simpa using hv⟩
        · exact ⟨j + 1, by simpa using hj, by omega, by simpa using hc⟩
      · rintro ⟨j, hj, rfl, hc⟩
        cases j with
        | zero => exact Or.inl (by omega)
        | succ j =>
          refine Or.inr ⟨j, by simpa using hj, by omega, ?_⟩
          simpa using hc
    · rw [show pendingIdxCnpjAux n (v :: rest) = pendingIdxCnpjAux (n + 1) rest by
        simp [pendingIdxCnpjAux, hv]]
      rw [ih (n + 1) i]
      constructor
      · rintro ⟨j, hj, rfl, hc⟩
        exact ⟨j + 1, by simpa using hj, by omega, by simpa using hc⟩
      · rintro ⟨j, hj, rfl, hc⟩
        cases j with
        | zero => exact absurd (by simpa using hc) hv
        | succ j => exact ⟨j, by simpa using hj, by omega, by simpa using hc⟩

theorem pendingIdxCnpjAux_ge (col : List String) (n i : Nat)
    (h : i ∈ pendingIdxCnpjAux n col) : n ≤ i := by
  rcases (pendingIdxCnpjAux_mem col n i).mp h with ⟨j, _, rfl, _⟩
  omega

theorem pendingIdxCnpjAux_pairwise :
    ∀ (col : List String) (n : Nat), (pendingIdxCnpjAux n col).Pairwise (· < ·) := by
  intro col
  induction col with
  | nil => intro n; simp [pendingIdxCnpjAux]
  | cons v rest ih =>
    intro n
    by_cases hv : clean v = ""
    · rw [show pendingIdxCnpjAux n (v :: rest) = n :: pendingIdxCnpjAux (n + 1) rest by
        simp [pendingIdxCnpjAux, hv]]
      refine List.pairwise_cons.mpr ⟨fun i hi => ?_, ih (n + 1)⟩
      have := pendingIdxCnpjAux_ge rest (n + 1) i hi
      omega
    · rw [show pendingIdxCnpjAux n (v :: rest) = pendingIdxCnpjAux (n + 1) rest by
        simp [pendingIdxCnpjAux, hv]]
      exact ih (n + 1)

/-! ## A case form of the extraction chain -/

theorem fetchCnpj_cases (d : Doc) :
    fetchCnpj d =
      if strat1 d ≠ "" then strat1 d
      else if strat2 d ≠ "" then strat2 d
      else strat3 d := rfl

theorem fetchCnpj_eq_chainSpec (d : Doc) : fetchCnpj d = chainSpec d := by
  rw [fetchCnpj_cases]
  unfold chainSpec firstNonEmpty
  by_cases h1 : strat1 d = ""
  · by_cases h2 : strat2 d = ""
    · by_cases h3 : strat3 d = "" <;> simp [List.find?, h1, h2, h3]
    · simp [List.find?, h1, h2]
  · simp [List.find?, h1]

/-! ## Claim theorems -/

/-- Claim C1, counterexample: the address/phone stage's per-record
write-back is destructive. A record whose Logradouro is already the
non-empty value Rua X, patched with the all-empty dict (the shape a page
without a location section or a failed retry produces), has its
Logradouro blanked, contradicting the claim that a non-empty field is
unchanged by an empty patch value. -/
theorem c1_counterexample :
    emptyPatch.logradouro = ""
    ∧ ({ defaultRec with logradouro := "Rua X" } : Rec).logradouro ≠ ""
    ∧ (applyPatch { defaultRec with logradouro := "Rua X" } emptyPatch).logradouro
        ≠ ({ defaultRec with logradouro := "Rua X" } : Rec).logradouro := by
  decide

/-- Claim C1, amended: the per-record write-back of the address/phone
stage sets every field of the enrichment group to clean of the patch
value unconditionally, so a non-empty patch value v lands as clean v, but
an empty patch value blanks the field even when it was previously
non-empty; columns outside the group are untouched. The CNPJ stage's
write-back likewise assigns the fetched string unconditionally.
Non-destructive preservation happens only in the LOAD-step merge. -/
theorem c1_writeback_overwrites (r : Rec) (p : Patch) (c : String) :
    (applyPatch r p).logradouro = clean p.logradouro
    ∧ (applyPatch r p).complemento = clean p.complemento
    ∧ (applyPatch r p).bairro = clean p.bairro
    ∧ (applyPatch r p).cep = clean p.cep
    ∧ (applyPatch r p).municipio = clean p.municipio
    ∧ (applyPatch r p).estado = clean p.estado
    ∧ (applyPatch r p).telefone1 = clean p.telefone1
    ∧ (applyPatch r p).reg = r.reg
    ∧ (applyPatch r p).razao = r.razao
    ∧ (applyPatch r p).fantasia = r.fantasia
    ∧ (applyPatch r p).cnpj = r.cnpj
    ∧ (writeCnpj r c).cnpj = c :=
  ⟨rfl, rfl, rfl, rfl, rfl, rfl, rfl, rfl, rfl, rfl, rfl, rfl⟩

/-- Claim C2, counterexample: the loop re-reads the total every
iteration, so it is not bounded by the first observed total when the
indicator's total grows (first total 2, five iterations), and a
non-advancing indicator makes it persist the same page index twice. -/
theorem c2_counterexample :
    firstTotal ([⟨some 1, some 2, true⟩, ⟨some 2, some 5, true⟩, ⟨some 3, some 5, true⟩,
        ⟨some 4, some 5, true⟩, ⟨some 5, some 5, true⟩] : List Obs) = some 2
    ∧ (crawl ([⟨some 1, some 2, true⟩, ⟨some 2, some 5, true⟩, ⟨some 3, some 5, true⟩,
        ⟨some 4, some 5, true⟩, ⟨some 5, some 5, true⟩] : List Obs)).length = 5
    ∧ ¬(5 ≤ 2)
    ∧ crawl ([⟨some 1, some 3, true⟩, ⟨some 1, some 3, true⟩] : List Obs) = [1, 1]
    ∧ ¬([1, 1] : List Nat).Nodup := by
  decide

/-- Claim C2, amended: when every observation of the run reports the same
positive total T, and the observed current page strictly increases from
one iteration to the next starting at 1 or above, the crawl performs at
most T iterations and never persists the same page index twice. -/
theorem c2_crawl_bounded (tr : List Obs) (T : Nat)
    (hT : 1 ≤ T)
    (htot : ∀ o ∈ tr, o.pageTot = some T)
    (hmono : List.Chain' (· < ·) (currents tr))
    (hfirst : ∀ c : Nat, (currents tr).head? = some c → 1 ≤ c) :
    (crawl tr).length ≤ T ∧ (crawl tr).Nodup := by
  constructor
  · have := crawl_length_aux tr T 1 (by omega) hT htot hmono hfirst
    omega
  · have hp : (currents tr).Pairwise (· < ·) := List.chain'_iff_pairwise.mp hmono
    have hps : (crawl tr).Pairwise (· < ·) := List.Pairwise.sublist (crawl_sublist tr) hp
    exact hps.imp (fun h => Nat.ne_of_lt h)

/-- Witness for the amended Claim C2 at a concrete honest trace. -/
theorem c2_crawl_bounded_witness :
    (crawl ([⟨some 1, some 2, true⟩, ⟨some 2, some 2, true⟩] : List Obs)).length ≤ 2
    ∧ (crawl ([⟨some 1, some 2, true⟩, ⟨some 2, some 2, true⟩] : List Obs)).Nodup :=
  c2_crawl_bounded ([⟨some 1, some 2, true⟩, ⟨some 2, some 2, true⟩] : List Obs) 2
    (by decide) (by decide)
    (by rw [show currents ([⟨some 1, some 2, true⟩, ⟨some 2, some 2, true⟩] : List Obs)
          = [1, 2] from rfl]
        exact List.chain'_cons.mpr ⟨by omega, List.chain'_singleton 2⟩)
    (by intro c hc; simp [currents] at hc; omega)

/-- Claim C3, counterexample: the dataset merger concatenates the shard
tables with no deduplication, so two shards carrying the same
registration key yield a working table with a duplicate key. -/
theorem c3_counterexample :
    keysOf (concatShards [[⟨"1", "a", "b"⟩], [⟨"1", "a", "b"⟩]]) = ["1", "1"]
    ∧ ¬(keysOf (concatShards [[⟨"1", "a", "b"⟩], [⟨"1", "a", "b"⟩]])).Nodup := by
  decide

/-- Claim C3, amended: the concatenated table's key list is exactly the
concatenation of the shards' key lists, hence duplicate-free iff every
shard is duplicate-free and the shards are pairwise key-disjoint; and the
LOAD step's left merge reproduces the base table's keys whenever the
checkpoint matches each base row at most once, so key uniqueness of the
base table is preserved under that condition. -/
theorem c3_key_uniqueness (shards : List (List BaseRow))
    (base : List BaseRow) (old : List CnpjRow)
    (hone : ∀ b ∈ base, (old.filter (fun o => rowMatches b o)).length ≤ 1) :
    keysOf (concatShards shards) = (shards.map keysOf).flatten
    ∧ ((keysOf (concatShards shards)).Nodup ↔
        (∀ l ∈ shards.map keysOf, l.Nodup) ∧ (shards.map keysOf).Pairwise List.Disjoint)
    ∧ keysOfC (mergeWithExisting base old) = base.map BaseRow.reg
    ∧ ((base.map BaseRow.reg).Nodup → (keysOfC (mergeWithExisting base old)).Nodup) := by
  have hconc : keysOf (concatShards shards) = (shards.map keysOf).flatten := by
    unfold keysOf concatShards
    rw [List.map_flatten]
  refine ⟨hconc, ?_, mergeWith_keys base old hone, ?_⟩
  · rw [hconc]
    exact List.nodup_flatten
  · intro hnd
    rw [mergeWith_keys base old hone]
    exact hnd

/-- Witness for the amended Claim C3 at concrete tables. -/
theorem c3_key_uniqueness_witness :
    (keysOfC (mergeWithExisting [⟨"1", "a", "b"⟩] [⟨"1", "a", "b", "42"⟩])).Nodup :=
  (c3_key_uniqueness [] [⟨"1", "a", "b"⟩] [⟨"1", "a", "b", "42"⟩]
    (by decide)).2.2.2 (by decide)

/-- Claim C4, counterexample: in the CNPJ stage (get_cnpj.py), a raised
transport failure on the first fetch is absorbed immediately by the
except clause with an empty result and NO retry: only one attempt is
made (not the two the claim requires), and a would-have-succeeded second
oracle is never consulted. -/
theorem c4_counterexample :
    getCnpjDrive (Except.error ()) (Except.ok "12.345.678/0001-90") = ("", 1)
    ∧ (getCnpjDrive (Except.error ()) (Except.ok "12.345.678/0001-90")).2 ≠ 2 := by
  decide

/-- Claim C4, amended: the address/phone stage honours the contract as
claimed: a raised first attempt is followed by exactly one retry, a
failing retry degrades to the all-empty patch, and nothing propagates.
In the CNPJ stage, a raised first attempt is absorbed with the empty
string and no retry; the single light retry there is triggered by an
empty first RESULT, not by a raised failure. -/
theorem c4_retry_semantics :
    (∀ o2 : Except Unit Patch, (cnpjbizDrive (Except.error ()) o2).2 = 2)
    ∧ cnpjbizDrive (Except.error ()) (Except.error ()) = (emptyPatch, 2)
    ∧ (∀ p : Patch, cnpjbizDrive (Except.error ()) (Except.ok p) = (p, 2))
    ∧ (∀ p : Patch, cnpjbizDrive (Except.ok p) (Except.error ()) = (p, 1))
    ∧ (∀ s2 : Except Unit String, getCnpjDrive (Except.error ()) s2 = ("", 1))
    ∧ (∀ c : String, getCnpjDrive (Except.ok "") (Except.ok c) = (c, 2))
    ∧ getCnpjDrive (Except.ok "") (Except.error ()) = ("", 2) := by
  refine ⟨fun o2 => ?_, rfl, fun p => rfl, fun p => rfl, fun s2 => ?_, fun c => rfl, rfl⟩
  · cases o2 <;> rfl
  · cases s2 <;> rfl

/-- Claim C5: the extraction chain equals the first non-empty result of
the strategies in the order direct id, label-relative lookup, page-source
regex; when the direct-id anchor is absent and the label yields a value,
that value is returned; when both structural anchors are absent, the
result is the regex match over the raw page source. -/
theorem c5_fallback_ordering (d : Doc) :
    fetchCnpj d = chainSpec d
    ∧ (d.byId = none → strat2 d ≠ "" → fetchCnpj d = strat2 d)
    ∧ (d.byId = none → d.byLabel = none → fetchCnpj d = extractCnpjText d.pageSource) := by
  refine ⟨fetchCnpj_eq_chainSpec d, ?_, ?_⟩
  · intro hid h2
    have h1 : strat1 d = "" := by simp [strat1, hid]
    rw [fetchCnpj_cases]
    simp [h1, h2]
  · intro hid hlab
    have h1 : strat1 d = "" := by simp [strat1, hid]
    have h2 : strat2 d = "" := by simp [strat2, hlab]
    rw [fetchCnpj_cases]
    simp [h1, h2, strat3]

/-- Witness for Claim C5 at concrete documents for both fallback steps. -/
theorem c5_fallback_ordering_witness :
    fetchCnpj ⟨none, some "12.345.678/0001-90", ""⟩
        = strat2 ⟨none, some "12.345.678/0001-90", ""⟩
    ∧ fetchCnpj ⟨none, none, "x 12.345.678/0001-90"⟩
        = extractCnpjText "x 12.345.678/0001-90" :=
  ⟨(c5_fallback_ordering ⟨none, some "12.345.678/0001-90", ""⟩).2.1 rfl (by decide),
   (c5_fallback_ordering ⟨none, none, "x 12.345.678/0001-90"⟩).2.2 rfl rfl⟩

/-- Claim C6: with batch size 10 and 25 pending records the enrichment
loop writes exactly three checkpoints, after the 10th and 20th processed
records and a final flush after the 25th, and nowhere else. -/
theorem c6_checkpoint_cadence : checkpointPoints 10 25 = [10, 20, 25] := by
  decide

/-- Claim C7: a row is pending for a stage iff some field of that stage's
group is empty after whitespace normalization, with the single CNPJ
column for the CNPJ stage and the seven target columns for the
address/phone stage, and both pending index lists are strictly
increasing, preserving table row order. -/
theorem c7_pending_set (table : List Rec) (col : List String) (i : Nat) :
    (i ∈ pendingIdxBiz table ↔
      i < table.length ∧ ∃ c ∈ targetCols, clean (getCol (table.getD i defaultRec) c) = "")
    ∧ (pendingIdxBiz table).Pairwise (· < ·)
    ∧ (i ∈ pendingIdxCnpj col ↔ i < col.length ∧ clean (col.getD i "") = "")
    ∧ (pendingIdxCnpj col).Pairwise (· < ·) := by
  refine ⟨?_, ?_, ?_, ?_⟩
  · unfold pendingIdxBiz
    rw [List.mem_filter, List.mem_range]
    constructor
    · rintro ⟨hlt, hp⟩
      rcases List.any_eq_true.mp hp with ⟨c, hc, he⟩
      exact ⟨hlt, c, hc, by simpa using he⟩
    · rintro ⟨hlt, c, hc, he⟩
      exact ⟨hlt, List.any_eq_true.mpr ⟨c, hc, by simpa using he⟩⟩
  · exact List.Pairwise.filter _ (List.pairwise_lt_range _)
  · rw [pendingIdxCnpj, pendingIdxCnpjAux_mem]
    constructor
    · rintro ⟨j, hj, rfl, hc⟩
      simpa using And.intro hj hc
    · rintro ⟨hi, hc⟩
      exact ⟨i, hi, by omega, hc⟩
  · exact pendingIdxCnpjAux_pairwise col 0

/-- Claim C8: a detail document presenting the label CNPJ: with the
adjacent formatted value keeps the punctuation: the fetch returns exactly
the formatted string, and the write-back stores it verbatim in the
record's tax-ID column. -/
theorem c8_formatted_cnpj (d : Doc)
    (h1 : d.byLabel = some "12.345.678/0001-90")
    (h2 : d.byId = none) :
    fetchCnpj d = "12.345.678/0001-90"
    ∧ (writeCnpj { defaultRec with reg := "12345", razao := "ACME" }
        (fetchCnpj d)).cnpj = "12.345.678/0001-90" := by
  have hs1 : strat1 d = "" := by simp [strat1, h2]
  have hs2 : strat2 d = "12.345.678/0001-90" := by
    rw [strat2, h1]
    decide
  have hf : fetchCnpj d = "12.345.678/0001-90" := by
    rw [fetchCnpj_cases]
    simp [hs1, hs2]
  exact ⟨hf, by rw [hf]; rfl⟩

/-- Witness for Claim C8 at the concrete scenario document. -/
theorem c8_formatted_cnpj_witness :
    fetchCnpj ⟨none, some "12.345.678/0001-90", ""⟩ = "12.345.678/0001-90"
    ∧ (writeCnpj { defaultRec with reg := "12345", razao := "ACME" }
        (fetchCnpj ⟨none, some "12.345.678/0001-90", ""⟩)).cnpj = "12.345.678/0001-90" :=
  c8_formatted_cnpj ⟨none, some "12.345.678/0001-90", ""⟩ rfl rfl

/-- Claim C9: a pending record whose CNPJ, stripped to digits, is empty
or not exactly 14 digits long is skipped without any field write (the row
is returned untouched), while the batch-progress counter still advances
by one. -/
theorem c9_invalid_skip (r : Rec) (k : Nat) (p : Patch)
    (h : onlyDigits (clean r.cnpj) = "" ∨ (onlyDigits (clean r.cnpj)).length ≠ 14) :
    cnpjbizIter r k p = (r, k + 1) := by
  unfold cnpjbizIter
  rw [if_pos h]

/-- Witness for Claim C9 at a concrete record with a 6-digit CNPJ. -/
theorem c9_invalid_skip_witness :
    cnpjbizIter { defaultRec with reg := "12345", cnpj := "12.345" } 0 emptyPatch
      = ({ defaultRec with reg := "12345", cnpj := "12.345" }, 1) :=
  c9_invalid_skip { defaultRec with reg := "12345", cnpj := "12.345" } 0 emptyPatch
    (by decide)

/-- Claim C10: whitespace normalization is idempotent, and a cleaned
string has no leading or trailing whitespace and no two adjacent
whitespace characters (every whitespace character it retains is a single
space). -/
theorem c10_clean_idempotent (s : String) :
    clean (clean s) = clean s
    ∧ (∀ c ∈ (clean s).data, isSpaceChar c = true → c = ' ')
    ∧ (clean s).data.head?.all (fun c => !isSpaceChar c) = true
    ∧ (clean s).data.getLast?.all (fun c => !isSpaceChar c) = true
    ∧ NoAdjSpaces (clean s).data := by
  have hdata : (clean s).data = cleanList s.data := rfl
  refine ⟨?_, ?_, ?_, ?_, ?_⟩
  · show String.mk (cleanList (cleanList s.data)) = String.mk (cleanList s.data)
    rw [cleanList_idem]
  · rw [hdata]
    exact cleanList_space_eq s.data
  · rw [hdata]
    rcases hh : (cleanList s.data).head? with _ | c
    · rfl
    · have := stripList_head (collapseAux false s.data) c hh
      simp [Option.all, this]
  · rw [hdata]
    rcases hh : (cleanList s.data).getLast? with _ | c
    · rfl
    · have := stripList_getLast (collapseAux false s.data) c hh
      simp [Option.all, this]
  · rw [hdata]
    exact cleanList_chain' s.data

end Ans
